import Mathlib

/-
Verification of the SkyDB client consistency layer of skynet-js.

The development shallowly embeds the registry entry model, the revision
number cache, the entry signing and verification protocol, the JSON
get/set/delete orchestration, the skylink textual parser, and the MySky
singleton constructor.  Components whose implementation file is not part
of the repository snapshot (the skydb module, the registry module and the
skylink parser: only their callers, declarations and tests are present)
are modelled from the specification; their doc comments say so explicitly.
-/

namespace SkynetJs

/-- Byte sequences are lists of naturals (each byte < 256 in intended use). -/
abbrev Bytes := List Nat

/-- The maximum length for entry data when setting entry data.
Taken from src/src/mysky/index.ts, line 91: `MAX_ENTRY_LENGTH = 70`. -/
def MAX_ENTRY_LENGTH : Nat := 70

/-- Modelled from the spec: revisions are 64-bit unsigned integers; the
maximum representable revision, beyond which a write must fail instead of
wrapping around. -/
def MAX_REVISION : Nat := 2 ^ 64 - 1

/-- Modelled from the spec: the decoded raw payload of a Content Link is a
fixed 32-byte content digest plus a 2-byte metadata bitfield (spec section 6). -/
def RAW_SKYLINK_SIZE : Nat := 34

/-- Modelled from the spec: the reserved deletion sentinel written by
`deleteJSON`, a fixed byte sequence whose length equals that of a decoded
Content Link (the skydb module defining it is not in the snapshot; MySky
imports it as `DELETION_ENTRY_DATA`). -/
def DELETION_ENTRY_DATA : Bytes := List.replicate RAW_SKYLINK_SIZE 0

/-- The error taxonomy of the client layer (spec section 7). -/
inductive SkyError where
  | validationError
  | trustError
  | conflictError
  | maxRevision
  | formatError
  | blobMissing
deriving DecidableEq, Repr

/-- Modelled from the spec: a per-key cached revision value.  `unknown`
means the key was never touched, `noEntry` is the defined "no entry yet"
sentinel (distinct from revision 0), `rev n` is a known revision. -/
inductive CachedRevision where
  | unknown : CachedRevision
  | noEntry : CachedRevision
  | rev : Nat → CachedRevision
deriving DecidableEq, Repr

/-- Modelled from the spec: `incrementRevision` from the skydb module (not in
the snapshot; MySky imports it).  From the sentinel the first write gets
revision 0; otherwise the revision is incremented, failing permanently (no
wraparound) when the result would exceed the maximum representable revision.
`none` is the "no entry yet" sentinel. -/
def incrementRevision : Option Nat → Except SkyError Nat
  | none => .ok 0
  | some n => if n < MAX_REVISION then .ok (n + 1) else .error .maxRevision

/-- Modelled from the spec (section 4.4, step 2): the revision supplied to a
locked operation: an unknown cache is seeded from the remote entry (absence
of a remote entry seeds the sentinel `none`). -/
def seededRevision (c : CachedRevision) (remote : Option Nat) : Option Nat :=
  match c with
  | .unknown => remote
  | .noEntry => none
  | .rev n => some n

/-- The cached revision recording an option-valued revision. -/
def cacheOf : Option Nat → CachedRevision
  | none => .noEntry
  | some n => .rev n

/-- Modelled from the spec (section 4.4, `observe`): advance the cached
revision only if the observed value is greater. -/
def observeRevision (c : CachedRevision) (m : Nat) : CachedRevision :=
  match c with
  | .rev n => .rev (Nat.max n m)
  | _ => .rev m

/-- A registry entry: data key, byte data, and revision (spec section 3). -/
structure RegistryEntry where
  dataKey : String
  data : Bytes
  revision : Nat
deriving DecidableEq, Repr

/-- A registry entry together with its signature (spec section 3). -/
structure SignedRegistryEntry where
  entry : RegistryEntry
  signature : Bytes
deriving DecidableEq, Repr

/-- Modelled from the spec: fixed-width (8-byte, little-endian) encoding of a
revision for the canonical entry digest layout (spec section 4.2). -/
def encodeUint64 (n : Nat) : Bytes :=
  (List.range 8).map (fun i => n / 2 ^ (8 * i) % 256)

/-- Modelled from the spec: a deterministic fixed-size (32-byte) hash of a
string, standing in for the cryptographic digest primitive of the Signer
component (an external dependency of the core). -/
def digest32 (s : String) : Bytes :=
  (List.range 32).map
    (fun i => (s.data.foldl (fun a c => a * 131 + c.toNat + i) (i + 7)) % 256)

/-- Modelled from the spec (section 4.2): the canonical entry digest byte
layout, `digest(dataKey) ++ data ++ fixed-width-encoded(revision)`. -/
def registryEntryDigest (e : RegistryEntry) : Bytes :=
  digest32 e.dataKey ++ e.data ++ encodeUint64 e.revision

/-- Modelled from the spec: deterministic public-key derivation from a
private key (the Signer's `derive`). -/
def publicKeyOf (priv : String) : String := "pk:" ++ priv

/-- Modelled from the spec: the unique valid signature of a digest under a
public key; stands in for the asymmetric signature primitive. -/
def mkSig (pub : String) (d : Bytes) : Bytes := digest32 pub ++ d

/-- Modelled from the spec: signing with a private key produces the
signature valid under the derived public key. -/
def signDigest (priv : String) (d : Bytes) : Bytes := mkSig (publicKeyOf priv) d

/-- Modelled from the spec: signature verification; exactly the signature
produced for this public key and digest verifies. -/
def verifySig (pub : String) (d sig : Bytes) : Bool := sig = mkSig pub d

/-- Modelled from the spec: a Content Link's raw payload for an uploaded
JSON document: a 2-byte metadata bitfield (nonzero version marker, so a
genuine Content Link is never the reserved all-zero deletion sentinel)
followed by the 32-byte content digest. -/
def contentLinkOf (json : String) : Bytes := 1 :: 0 :: digest32 json

/-- Modelled from the spec: the raw payload of an Entry Link for a
(publicKey, dataKey) pair: a distinct version discriminator followed by the
digest of the pair (spec sections 4.6 and 6). -/
def entryLinkBytes (pk dk : String) : Bytes := 2 :: 0 :: digest32 (pk ++ "/" ++ dk)

/-- Modelled from the spec: the canonical textual encoding of a raw link
payload (LinkCodec `format`); a deterministic injective rendering stands in
for the fixed-length base64 envelope. -/
def formatLink (b : Bytes) : String := "sia://" ++ toString b

/-- Pointwise update of a two-level map keyed by (publicKey, dataKey). -/
def setMap2 {α : Type} (f : String → String → α) (pk dk : String) (v : α) :
    String → String → α :=
  fun p d => if p = pk ∧ d = dk then v else f p d

/-- The world visible to the client: the remote registry, the external blob
store, the per-key revision cache, and (as a history variable) the last
remote revision observed per key. -/
structure World where
  registry : String → String → Option SignedRegistryEntry
  blobs : Bytes → Option String
  cache : String → String → CachedRevision
  obs : String → String → Option Nat

/-- Modelled from the spec (section 4.3, RegistryClient `getEntry`): fetch
the signed entry; `none` means no such entry; on a non-null response the
digest is recomputed and verified, and a verification failure raises a
TrustError rather than returning unverified data. -/
def getEntry (w : World) (pk dk : String) : Except SkyError (Option SignedRegistryEntry) :=
  match w.registry pk dk with
  | none => .ok none
  | some se =>
    if verifySig pk (registryEntryDigest se.entry) se.signature then .ok (some se)
    else .error .trustError

/-- Modelled from the spec: a read that reveals a revision advances the
cache (monotonically) and records the observation. -/
def observeW (w : World) (pk dk : String) (m : Nat) : World :=
  { w with cache := setMap2 w.cache pk dk (observeRevision (w.cache pk dk) m),
           obs := setMap2 w.obs pk dk (some m) }

/-- Modelled from the spec (section 4.5, SkyDB `getJSON`): fetch the signed
entry; if absent return nulls; if the data is the reserved deletion
sentinel report nulls without attempting to decode it as a link; otherwise
decode the data as a Content Link, fetch its bytes from the blob store,
and return the parsed document together with the link used. -/
def getJSON (w : World) (pk dk : String) :
    World × Except SkyError (Option (String × String)) :=
  match getEntry w pk dk with
  | .error e => (w, .error e)
  | .ok none => (w, .ok none)
  | .ok (some se) =>
    let w1 := observeW w pk dk se.entry.revision
    if se.entry.data = DELETION_ENTRY_DATA then (w1, .ok none)
    else if se.entry.data.length = RAW_SKYLINK_SIZE then
      match w1.blobs se.entry.data with
      | none => (w1, .error .blobMissing)
      | some json => (w1, .ok (some (json, formatLink se.entry.data)))
    else (w1, .error .formatError)

/-- Modelled from the spec (section 4.3, RegistryClient `setEntry`): publish
succeeds, or raises a ConflictError when the remote rejects the revision as
not strictly greater than the one it already holds. -/
def postSignedEntry (w : World) (pk : String) (e : RegistryEntry) (sig : Bytes) :
    Except SkyError World :=
  match w.registry pk e.dataKey with
  | none => .ok { w with registry := setMap2 w.registry pk e.dataKey (some ⟨e, sig⟩) }
  | some old =>
    if old.entry.revision < e.revision then
      .ok { w with registry := setMap2 w.registry pk e.dataKey (some ⟨e, sig⟩) }
    else .error .conflictError

/-- Modelled from the spec (section 4.4, step 2): seed an unknown cached
revision from the remote entry (verifying it); absence of a remote entry
seeds the "no entry yet" sentinel. -/
def seedWorld (w : World) (pk dk : String) : Except SkyError World :=
  match w.cache pk dk with
  | .unknown =>
    match getEntry w pk dk with
    | .error e => .error e
    | .ok none => .ok { w with cache := setMap2 w.cache pk dk .noEntry }
    | .ok (some se) =>
      .ok { w with cache := setMap2 w.cache pk dk (.rev se.entry.revision),
                   obs := setMap2 w.obs pk dk (some se.entry.revision) }
  | _ => .ok w

/-- Modelled from the spec (section 7, ConflictError): refresh the cache
from the authoritative remote value before the error is surfaced. -/
def refreshFromRemote (w : World) (pk dk : String) : World :=
  match w.registry pk dk with
  | none => { w with cache := setMap2 w.cache pk dk .noEntry }
  | some se =>
    { w with cache := setMap2 w.cache pk dk (.rev se.entry.revision),
             obs := setMap2 w.obs pk dk (some se.entry.revision) }

/-- Modelled from the spec (sections 4.4 and 4.5): the locked write
sequence shared by setJSON, setEntryData and deleteJSON.  Under the per-key
exclusive region: seed the cache if unknown, compute the next revision,
build and sign the entry, publish it, and only on success commit the new
revision to the cache; on a conflict refresh the cache from the remote and
fail outward. -/
def writeEntry (w : World) (priv dk : String) (data : Bytes) :
    World × Except SkyError Nat :=
  let pk := publicKeyOf priv
  match seedWorld w pk dk with
  | .error e => (w, .error e)
  | .ok w1 =>
    match incrementRevision (seededRevision (w1.cache pk dk) none) with
    | .error e => (w1, .error e)
    | .ok n =>
      let entry : RegistryEntry := ⟨dk, data, n⟩
      let sig := signDigest priv (registryEntryDigest entry)
      match postSignedEntry w1 pk entry sig with
      | .ok w2 => ({ w2 with cache := setMap2 w2.cache pk dk (.rev n) }, .ok n)
      | .error .conflictError => (refreshFromRemote w1 pk dk, .error .conflictError)
      | .error e => (w1, .error e)

/-- Modelled from the spec (section 6): the fixed protocol ceiling on entry
data length is enforced locally; violating it is rejected before any
network round-trip.  The deletion sentinel is allowed when the caller
explicitly opts in (the `allowDeletionEntryData` flag visible at the
MySky.deleteJSON call site in src/src/mysky/index.ts). -/
def validateEntryData (data : Bytes) (allowDeletionEntryData : Bool) :
    Except SkyError Unit :=
  if data.length > MAX_ENTRY_LENGTH ∧ ¬(allowDeletionEntryData ∧ data = DELETION_ENTRY_DATA)
  then .error .validationError
  else .ok ()

/-- Entry-data write, mirroring MySky.setEntryData (src/src/mysky/index.ts,
lines 513-551): the data is validated first, before lock acquisition,
signing or publishing (the world is untouched on a validation failure);
then the locked write sequence runs. -/
def setEntryData (w : World) (priv dk : String) (data : Bytes)
    (allowDeletionEntryData : Bool) : World × Except SkyError Bytes :=
  match validateEntryData data allowDeletionEntryData with
  | .error e => (w, .error e)
  | .ok _ =>
    match writeEntry w priv dk data with
    | (w2, .ok _) => (w2, .ok data)
    | (w2, .error e) => (w2, .error e)

/-- Modelled from the spec (section 4.5, SkyDB `setJSON`): upload the JSON
document to the blob store to obtain its Content Link, then run the locked
write sequence with the decoded link as the entry data; returns the data
link used. -/
def setJSON (w : World) (priv dk json : String) :
    World × Except SkyError (String × String) :=
  let link := contentLinkOf json
  let w1 := { w with blobs := fun b => if b = link then some json else w.blobs b }
  match writeEntry w1 priv dk link with
  | (w2, .ok _) => (w2, .ok (json, formatLink link))
  | (w2, .error e) => (w2, .error e)

/-- Deletion, mirroring MySky.deleteJSON (src/src/mysky/index.ts, lines
440-452): the identical locked write sequence with the data set to the
reserved deletion sentinel, with deletion entry data explicitly allowed. -/
def deleteJSON (w : World) (priv dk : String) : World × Except SkyError Unit :=
  match setEntryData w priv dk DELETION_ENTRY_DATA true with
  | (w2, .ok _) => (w2, .ok ())
  | (w2, .error e) => (w2, .error e)

/-- Modelled from the spec: the data-key tweak derived from a MySky path
(`deriveDiscoverableFileTweak` of src/src/mysky/tweak.ts, not in the
snapshot): a deterministic digest of the path. -/
def deriveDiscoverableFileTweak (path : String) : String :=
  toString (digest32 path)

/-- Modelled from the spec (section 4.3): `getEntryLink` from the registry
module (not in the snapshot; MySky.getEntryLink calls it): the
deterministic Entry Link of a (publicKey, dataKey) pair, computed locally
with no network call. -/
def getEntryLink (pk dk : String) : String :=
  formatLink (entryLinkBytes pk dk)

/-- MySky.getEntryLink (src/src/mysky/index.ts, lines 365-374) as an
operation over the world: it derives the data key from the path and
computes the entry link; the world is threaded to express that no network
state is consulted or changed. -/
def mySkyGetEntryLink (w : World) (userID path : String) : World × String :=
  (w, getEntryLink userID (deriveDiscoverableFileTweak path))

/-
The MySky singleton constructor, embedded from src/src/mysky/index.ts.
-/

/-- The domain for MySky (src/src/mysky/index.ts, line 66). -/
def MYSKY_DOMAIN : String := "skynet-mysky.hns"

/-- The domain for MySky dev (src/src/mysky/index.ts, line 76). -/
def MYSKY_DEV_DOMAIN : String := "skynet-mysky-dev.hns"

/-- The domain for MySky alpha (src/src/mysky/index.ts, line 86). -/
def MYSKY_ALPHA_DOMAIN : String := "sandbridge.hns"

/-- Permission categories (from skynet-mysky-utils, as used at
src/src/mysky/index.ts, lines 158-160). -/
inductive PermCategory where
  | discoverable
  | hidden
deriving DecidableEq, Repr

/-- Permission types (from skynet-mysky-utils). -/
inductive PermType where
  | read
  | write
deriving DecidableEq, Repr

/-- A requested permission (requestor, path, category, type). -/
structure Permission where
  requestor : String
  path : String
  category : PermCategory
  permType : PermType
deriving DecidableEq, Repr

/-- Connector options relevant to MySky.New (`dev` and `alpha` flags). -/
structure ConnectorOptions where
  dev : Bool
  alpha : Bool
deriving DecidableEq, Repr

/-- The observable state of a constructed MySky instance: the connector
domain it was initialized with, its requested permissions, and the host
domain. -/
structure MySkyInstance where
  connectorDomain : String
  permissions : List Permission
  hostDomain : String
deriving DecidableEq, Repr

/-- MySky.New (src/src/mysky/index.ts, lines 139-166).  The process-wide
singleton `MySky.instance` is passed and returned explicitly.  If an
instance already exists it is returned unchanged, before the connector
domain is selected, the connector is initialized, or permissions are built
for the passed skapp domain; otherwise a new instance is constructed and
stored. -/
def mySkyNew (instanceState : Option MySkyInstance) (hostDomain : String)
    (skappDomain : Option String) (opts : ConnectorOptions) :
    MySkyInstance × Option MySkyInstance :=
  match instanceState with
  | some i => (i, some i)
  | none =>
    let domain := if opts.alpha then MYSKY_ALPHA_DOMAIN
                  else if opts.dev then MYSKY_DEV_DOMAIN
                  else MYSKY_DOMAIN
    let permissions :=
      match skappDomain with
      | some sd =>
        [⟨hostDomain, sd, .discoverable, .write⟩,
         ⟨hostDomain, sd, .hidden, .read⟩,
         ⟨hostDomain, sd, .hidden, .write⟩]
      | none => []
    let i : MySkyInstance := ⟨domain, permissions, hostDomain⟩
    (i, some i)

/-- loadMySky (src/src/mysky/index.ts, lines 109-117): it simply awaits
MySky.New with its arguments and returns the result. -/
def loadMySky (instanceState : Option MySkyInstance) (hostDomain : String)
    (skappDomain : Option String) (opts : ConnectorOptions) :
    MySkyInstance × Option MySkyInstance :=
  mySkyNew instanceState hostDomain skappDomain opts

/-
The skylink textual parser (LinkCodec `parse`), modelled from the spec.
-/

/-- The base64url alphabet in which the canonical 46-character textual
skylink is written. -/
def isBase64Char (c : Char) : Bool :=
  c.isAlpha || c.isDigit || c == '-' || c == '_'

/-- A valid canonical textual skylink body: exactly 46 characters of the
base64url alphabet. -/
def isValidSkylink46 (l : List Char) : Bool :=
  l.length == 46 && l.all isBase64Char

/-- Drop an expected leading character sequence, or fail. -/
def dropStart : List Char → List Char → Option (List Char)
  | [], s => some s
  | _ :: _, [] => none
  | p :: ps, c :: cs => if c = p then dropStart ps cs else none

/-- Modelled from the spec (section 4.1): strip an accepted URI scheme
qualifier (`sia://` or `sia:`) from the input if present. -/
def trimUri (s : List Char) : List Char :=
  match dropStart ("sia://".data) s with
  | some r => r
  | none =>
    match dropStart ("sia:".data) s with
    | some r => r
    | none => s

/-- Keep everything before the first occurrence of a separator character. -/
def cutAt (c : Char) (s : List Char) : List Char :=
  s.takeWhile (· ≠ c)

/-- Modelled from the spec (section 4.1): for a form embedded in a full
portal URL, reduce the input to the URL's path, dropping the scheme and
host; other inputs pass through unchanged. -/
def stripPortal (s : List Char) : List Char :=
  match dropStart ("https://".data) s with
  | some r => (r.dropWhile (· ≠ '/')).drop 1
  | none =>
    match dropStart ("http://".data) s with
    | some r => (r.dropWhile (· ≠ '/')).drop 1
    | none => s

/-- Remove a single trailing slash, as the parser does to the extracted
pathname. -/
def trimTrailingSlash (s : List Char) : List Char :=
  if s.getLast? = some '/' then s.dropLast else s

/-- Split a candidate pathname into the 46-character link body and the
trailing path; fail when the body is not a valid link or the remainder is
not a path. -/
def parseCore (s : List Char) : Option (List Char × List Char) :=
  if isValidSkylink46 (s.take 46) && ((s.drop 46).isEmpty || (s.drop 46).head? == some '/')
  then some (s.take 46, s.drop 46)
  else none

/-- Modelled from the spec (section 4.1): `parseSkylink` from the skylink
parse module (not in the snapshot; only its callers and tests are).  It
accepts the canonical 46-character link with or without a URI scheme
qualifier, with or without a trailing path, query or fragment, and forms
embedded in a full portal URL; it returns the link and the trailing path,
or `none` (not an error) when the input is not recognizable as a link. -/
def parseSkylink (input : List Char) : Option (List Char × List Char) :=
  parseCore (trimTrailingSlash (cutAt '#' (cutAt '?' (stripPortal (trimUri input)))))

/-
The per-key locking and revision model for concurrent local writers,
modelled from the spec (sections 4.4 and 5).  A single (publicKey, dataKey)
key is considered; each local writer is an operation that acquires the
key's exclusive region, runs the locked write sequence atomically (no other
local writer can interleave with it while the region is held), and
releases.  The environment step models writers in other processes, which
the remote registry only ever lets increase the stored revision.
-/

/-- The outcome of one completed local write. -/
inductive Outcome where
  | success : Nat → Outcome
  | conflict : Outcome
  | maxRev : Outcome
deriving DecidableEq, Repr

/-- The phase of one local writer: not yet started, holding the exclusive
region, or completed with an outcome. -/
inductive Phase where
  | idle : Phase
  | locked : Phase
  | done : Outcome → Phase
deriving DecidableEq, Repr

/-- Pointwise update of the writer-phase map. -/
def setProc (f : Nat → Phase) (i : Nat) (v : Phase) : Nat → Phase :=
  fun j => if j = i then v else f j

/-- The remote registry accepts a publish exactly when the revision is
strictly greater than the stored one (or no entry is stored). -/
def acceptRev (reg : Option Nat) (n : Nat) : Bool :=
  match reg with
  | none => true
  | some m => m < n

/-- Is the candidate strictly above the stored remote revision? -/
def regLt (reg : Option Nat) (m : Nat) : Bool :=
  match reg with
  | none => true
  | some k => k < m

/-- The state of the concurrency model: the holder of the key's exclusive
region, the cached revision, the remote registry's stored revision, the
phase of every local writer, and (as a history variable) the revisions of
the successful local writes in completion order. -/
structure CState where
  lock : Option Nat
  cache : CachedRevision
  reg : Option Nat
  procs : Nat → Phase
  hist : List Nat

/-- The locked write sequence of one local writer, run while holding the
exclusive region (spec section 4.4): seed the cache if unknown, compute
the next revision with `incrementRevision`, publish (accepted exactly when
strictly greater than the stored revision), commit the revision to the
cache only on success, refresh the cache from the remote on a conflict,
and release the region on every exit path. -/
def runOp (s : CState) (i : Nat) : CState :=
  match incrementRevision (seededRevision s.cache s.reg) with
  | .error _ =>
    { s with lock := none, cache := cacheOf (seededRevision s.cache s.reg),
             procs := setProc s.procs i (.done .maxRev) }
  | .ok n =>
    if acceptRev s.reg n then
      { s with lock := none, cache := .rev n, reg := some n,
               hist := s.hist ++ [n],
               procs := setProc s.procs i (.done (.success n)) }
    else
      { s with lock := none, cache := cacheOf s.reg,
               procs := setProc s.procs i (.done .conflict) }

/-- One step of the concurrent system: a writer acquires the free exclusive
region, a writer holding the region runs the locked write sequence, or an
external-process writer advances the remote revision (the registry rejects
anything not strictly greater). -/
inductive CStep : CState → CState → Prop
  | acquire (s : CState) (i : Nat) (h1 : s.procs i = .idle) (h2 : s.lock = none) :
      CStep s { s with lock := some i, procs := setProc s.procs i .locked }
  | run (s : CState) (i : Nat) (h1 : s.procs i = .locked) (h2 : s.lock = some i) :
      CStep s (runOp s i)
  | env (s : CState) (m : Nat) (h : regLt s.reg m = true) :
      CStep s { s with reg := some m }

/-- Reachability in the concurrency model. -/
def CReach (s0 s : CState) : Prop := Relation.ReflTransGen CStep s0 s

/-- The initial state for a fresh process: the region free, the cache
untouched, all writers idle, no completed local writes; the remote
registry may already hold any revision. -/
def initC (reg0 : Option Nat) : CState :=
  { lock := none, cache := .unknown, reg := reg0, procs := fun _ => .idle, hist := [] }

/-- The invariant of the concurrency model: successful local writes carry
strictly increasing revisions, each bounded by the remote revision; a known
cached revision is bounded by the remote revision; a writer in the locked
phase holds the exclusive region; and a max-revision failure can only be
recorded once the remote revision reached the ceiling. -/
def CInv (s : CState) : Prop :=
  List.Chain' (· < ·) s.hist
  ∧ (∀ r ∈ s.hist, ∃ m, s.reg = some m ∧ r ≤ m)
  ∧ (∀ c, s.cache = .rev c → ∃ m, s.reg = some m ∧ c ≤ m)
  ∧ (∀ i, s.procs i = .locked → s.lock = some i)
  ∧ (∀ i, s.procs i = .done .maxRev → ∃ m, s.reg = some m ∧ MAX_REVISION ≤ m)

/-- The key-local consistency between the observation history variable and
the cache: any remote revision observed for the key is bounded by the
cached revision.  Maintained by seeding, observing, committing and
conflict refreshing. -/
def CacheObsOK (w : World) (pk dk : String) : Prop :=
  ∀ m c, w.obs pk dk = some m → w.cache pk dk = .rev c → m ≤ c

/-- Key-local well-formedness of a world: a stored entry verifies under the
key's public key, and a stored non-sentinel data field is a decodable
Content Link whose blob is present in the blob store. -/
def WellFormedKey (w : World) (pk dk : String) : Prop :=
  ∀ se, w.registry pk dk = some se →
    verifySig pk (registryEntryDigest se.entry) se.signature = true
    ∧ (se.entry.data ≠ DELETION_ENTRY_DATA →
        se.entry.data.length = RAW_SKYLINK_SIZE ∧ ∃ j, w.blobs se.entry.data = some j)

/-- A world with an empty registry, empty blob store and untouched cache,
used to evaluate the theorems on concrete inputs. -/
def emptyWorld : World :=
  { registry := fun _ _ => none, blobs := fun _ => none,
    cache := fun _ _ => .unknown, obs := fun _ _ => none }

/-- A concrete two-step trace of the concurrency model: the initial state. -/
def cW0 : CState := initC none

/-- The concrete trace after writer 0 acquires the exclusive region. -/
def cW1 : CState := { cW0 with lock := some 0, procs := setProc cW0.procs 0 .locked }

/-- The concrete trace after writer 0 runs the locked write sequence. -/
def cW2 : CState := runOp cW1 0

/-
Theorems.  Shared helper lemmas come first, then one theorem per claim
(with a witness where the theorem has hypotheses).
-/

theorem setMap2_same {α : Type} (f : String → String → α) (pk dk : String) (v : α) :
    setMap2 f pk dk v pk dk = v := by
  simp [setMap2]

theorem digest32_length (s : String) : (digest32 s).length = 32 := by
  simp [digest32]

theorem contentLinkOf_length (json : String) :
    (contentLinkOf json).length = RAW_SKYLINK_SIZE := by
  simp [contentLinkOf, RAW_SKYLINK_SIZE, digest32_length]

theorem deletion_entry_data_length : DELETION_ENTRY_DATA.length = RAW_SKYLINK_SIZE := by
  simp [DELETION_ENTRY_DATA]

theorem contentLinkOf_ne_deletion (json : String) :
    contentLinkOf json ≠ DELETION_ENTRY_DATA := by
  intro h
  simp [contentLinkOf, DELETION_ENTRY_DATA, RAW_SKYLINK_SIZE, List.replicate] at h

theorem verifySig_signDigest (priv : String) (d : Bytes) :
    verifySig (publicKeyOf priv) d (signDigest priv d) = true := by
  simp [verifySig, signDigest]

/-- C10: MySky.New, and hence loadMySky, maintains a process-wide
singleton: once an instance exists, every subsequent call returns that
same instance with the stored state unchanged, and the result is
independent of the hostDomain, skappDomain and options arguments, so no
connector is re-initialized and no permissions are requested for the newly
passed domain. -/
theorem mySkyNew_singleton (st : Option MySkyInstance) (i : MySkyInstance)
    (h : st = some i) (host host' : String) (skapp skapp' : Option String)
    (opts opts' : ConnectorOptions) :
    mySkyNew st host skapp opts = (i, st)
    ∧ mySkyNew st host skapp opts = mySkyNew st host' skapp' opts'
    ∧ loadMySky st host skapp opts = (i, st) := by
  subst h
  exact ⟨rfl, rfl, rfl⟩

theorem mySkyNew_singleton_witness :
    mySkyNew (some ⟨MYSKY_DOMAIN, [], "host.hns"⟩) "other.hns" (some "skapp.hns")
        ⟨true, true⟩
      = (⟨MYSKY_DOMAIN, [], "host.hns"⟩, some ⟨MYSKY_DOMAIN, [], "host.hns"⟩) :=
  (mySkyNew_singleton (some ⟨MYSKY_DOMAIN, [], "host.hns"⟩) ⟨MYSKY_DOMAIN, [], "host.hns"⟩
    rfl "other.hns" "x.hns" (some "skapp.hns") none ⟨true, true⟩ ⟨false, false⟩).1

/-- C8: getEntryLink is a pure, deterministic, local function of
(publicKey, dataKey): the world is returned unchanged (no network call is
made), and two invocations in arbitrary worlds produce the identical
string. -/
theorem getEntryLink_deterministic (w w' : World) (userID path : String) :
    (mySkyGetEntryLink w userID path).1 = w
    ∧ (mySkyGetEntryLink w userID path).2 = (mySkyGetEntryLink w' userID path).2
    ∧ (mySkyGetEntryLink w userID path).2
        = getEntryLink userID (deriveDiscoverableFileTweak path) :=
  ⟨rfl, rfl, rfl⟩

/-- C6: a setEntryData call whose data exceeds the fixed 70-byte protocol
ceiling is rejected with an error before any network round-trip: the world
(registry, blob store, cache) is returned untouched, so no lock
acquisition, signing or publishing happened; data within the ceiling
passes the validation check.  (The deletion-sentinel allowance is vacuous
for the ceiling since the sentinel's length is 34.) -/
theorem setEntryData_length_check (w : World) (priv dk : String) (data : Bytes)
    (allow : Bool) :
    (MAX_ENTRY_LENGTH < data.length →
      setEntryData w priv dk data allow = (w, .error .validationError))
    ∧ (data.length ≤ MAX_ENTRY_LENGTH → validateEntryData data allow = .ok ()) := by
  constructor
  · intro hlen
    have hne : data ≠ DELETION_ENTRY_DATA := by
      intro h
      rw [h, deletion_entry_data_length] at hlen
      simp [MAX_ENTRY_LENGTH, RAW_SKYLINK_SIZE] at hlen
    have hval : validateEntryData data allow = .error .validationError := by
      unfold validateEntryData
      rw [if_pos]
      exact ⟨hlen, fun hc => hne hc.2⟩
    unfold setEntryData
    rw [hval]
  · intro hlen
    unfold validateEntryData
    rw [if_neg]
    intro hc
    exact absurd hc.1 (not_lt.mpr hlen)

theorem setEntryData_length_check_witness :
    setEntryData emptyWorld "priv" "dk" (List.replicate 71 1) false
        = (emptyWorld, .error .validationError)
    ∧ validateEntryData (List.replicate 34 1) false = .ok () :=
  ⟨(setEntryData_length_check emptyWorld "priv" "dk" (List.replicate 71 1) false).1
      (by simp [MAX_ENTRY_LENGTH]),
   (setEntryData_length_check emptyWorld "priv" "dk" (List.replicate 34 1) false).2
      (by simp [MAX_ENTRY_LENGTH])⟩

theorem setJSON_fresh (w : World) (priv dk json : String)
    (hc : w.cache (publicKeyOf priv) dk = .unknown)
    (hr : w.registry (publicKeyOf priv) dk = none) :
    setJSON w priv dk json =
      ({ registry := setMap2 w.registry (publicKeyOf priv) dk
            (some ⟨⟨dk, contentLinkOf json, 0⟩,
              signDigest priv (registryEntryDigest ⟨dk, contentLinkOf json, 0⟩)⟩),
         blobs := fun b => if b = contentLinkOf json then some json else w.blobs b,
         cache := setMap2 (setMap2 w.cache (publicKeyOf priv) dk .noEntry)
            (publicKeyOf priv) dk (.rev 0),
         obs := w.obs },
       .ok (json, formatLink (contentLinkOf json))) := by
  simp only [setJSON, writeEntry, seedWorld, getEntry, hc, hr, setMap2_same,
    seededRevision, incrementRevision, postSignedEntry]

theorem setJSON_seeded (w : World) (priv dk json : String) (se : SignedRegistryEntry)
    (hc : w.cache (publicKeyOf priv) dk = .unknown)
    (hr : w.registry (publicKeyOf priv) dk = some se)
    (hv : verifySig (publicKeyOf priv) (registryEntryDigest se.entry) se.signature = true)
    (hmax : se.entry.revision < MAX_REVISION) :
    setJSON w priv dk json =
      ({ registry := setMap2 w.registry (publicKeyOf priv) dk
            (some ⟨⟨dk, contentLinkOf json, se.entry.revision + 1⟩,
              signDigest priv
                (registryEntryDigest ⟨dk, contentLinkOf json, se.entry.revision + 1⟩)⟩),
         blobs := fun b => if b = contentLinkOf json then some json else w.blobs b,
         cache := setMap2 (setMap2 w.cache (publicKeyOf priv) dk (.rev se.entry.revision))
            (publicKeyOf priv) dk (.rev (se.entry.revision + 1)),
         obs := setMap2 w.obs (publicKeyOf priv) dk (some se.entry.revision) },
       .ok (json, formatLink (contentLinkOf json))) := by
  have hlt : se.entry.revision < se.entry.revision + 1 := Nat.lt_succ_self _
  simp only [setJSON, writeEntry, seedWorld, getEntry, hc, hr, hv, setMap2_same,
    seededRevision, incrementRevision, hmax, hlt, if_true, postSignedEntry]

theorem setJSON_cached (w : World) (priv dk json : String) (c : Nat)
    (hc : w.cache (publicKeyOf priv) dk = .rev c)
    (hmax : c < MAX_REVISION)
    (hb : ∀ se, w.registry (publicKeyOf priv) dk = some se → se.entry.revision ≤ c) :
    setJSON w priv dk json =
      ({ registry := setMap2 w.registry (publicKeyOf priv) dk
            (some ⟨⟨dk, contentLinkOf json, c + 1⟩,
              signDigest priv (registryEntryDigest ⟨dk, contentLinkOf json, c + 1⟩)⟩),
         blobs := fun b => if b = contentLinkOf json then some json else w.blobs b,
         cache := setMap2 w.cache (publicKeyOf priv) dk (.rev (c + 1)),
         obs := w.obs },
       .ok (json, formatLink (contentLinkOf json))) := by
  cases hreg : w.registry (publicKeyOf priv) dk with
  | none =>
    simp only [setJSON, writeEntry, seedWorld, getEntry, hc, hreg, setMap2_same,
      seededRevision, incrementRevision, hmax, if_true, postSignedEntry]
  | some old =>
    have hlt : old.entry.revision < c + 1 := Nat.lt_succ_of_le (hb old hreg)
    simp only [setJSON, writeEntry, seedWorld, getEntry, hc, hreg, setMap2_same,
      seededRevision, incrementRevision, hmax, hlt, if_true, postSignedEntry]

theorem setJSON_ceiling (w : World) (priv dk json : String)
    (hc : w.cache (publicKeyOf priv) dk = .rev MAX_REVISION) :
    (setJSON w priv dk json).2 = .error .maxRevision
    ∧ (setJSON w priv dk json).1.registry = w.registry
    ∧ (setJSON w priv dk json).1.cache = w.cache := by
  simp [setJSON, writeEntry, seedWorld, getEntry, hc, setMap2_same,
    seededRevision, incrementRevision]

theorem setEntryData_cached (w : World) (priv dk : String) (data : Bytes)
    (allow : Bool) (c : Nat)
    (hval : validateEntryData data allow = .ok ())
    (hc : w.cache (publicKeyOf priv) dk = .rev c)
    (hmax : c < MAX_REVISION)
    (hb : ∀ se, w.registry (publicKeyOf priv) dk = some se → se.entry.revision ≤ c) :
    setEntryData w priv dk data allow =
      ({ registry := setMap2 w.registry (publicKeyOf priv) dk
            (some ⟨⟨dk, data, c + 1⟩,
              signDigest priv (registryEntryDigest ⟨dk, data, c + 1⟩)⟩),
         blobs := w.blobs,
         cache := setMap2 w.cache (publicKeyOf priv) dk (.rev (c + 1)),
         obs := w.obs },
       .ok data) := by
  cases hreg : w.registry (publicKeyOf priv) dk with
  | none =>
    simp only [setEntryData, hval, writeEntry, seedWorld, getEntry, hc, hreg, setMap2_same,
      seededRevision, incrementRevision, hmax, if_true, postSignedEntry]
  | some old =>
    have hlt : old.entry.revision < c + 1 := Nat.lt_succ_of_le (hb old hreg)
    simp only [setEntryData, hval, writeEntry, seedWorld, getEntry, hc, hreg, setMap2_same,
      seededRevision, incrementRevision, hmax, hlt, if_true, postSignedEntry]

theorem validateEntryData_deletion :
    validateEntryData DELETION_ENTRY_DATA true = .ok () := by
  simp [validateEntryData, MAX_ENTRY_LENGTH, deletion_entry_data_length, RAW_SKYLINK_SIZE]

theorem getJSON_absent (w : World) (pk dk : String)
    (hr : w.registry pk dk = none) :
    getJSON w pk dk = (w, .ok none) := by
  simp [getJSON, getEntry, hr]

theorem getJSON_deleted (w : World) (pk dk : String) (se : SignedRegistryEntry)
    (hr : w.registry pk dk = some se)
    (hv : verifySig pk (registryEntryDigest se.entry) se.signature = true)
    (hd : se.entry.data = DELETION_ENTRY_DATA) :
    (getJSON w pk dk).2 = .ok none := by
  simp [getJSON, getEntry, hr, hv, hd]

theorem getJSON_link (w : World) (pk dk : String) (se : SignedRegistryEntry)
    (json : String)
    (hr : w.registry pk dk = some se)
    (hv : verifySig pk (registryEntryDigest se.entry) se.signature = true)
    (hd : se.entry.data ≠ DELETION_ENTRY_DATA)
    (hl : se.entry.data.length = RAW_SKYLINK_SIZE)
    (hb : w.blobs se.entry.data = some json) :
    (getJSON w pk dk).2 = .ok (some (json, formatLink se.entry.data)) := by
  simp [getJSON, getEntry, observeW, hr, hv, hd, hl, hb]

/-- C2: setJSON's revision computation: the published revision is
max(cachedRevision, lastObservedRemoteRevision) + 1.  In detail: the
"no entry yet" sentinel is a defined value distinct from revision 0; on a
fresh key (unknown cache, no remote entry) the cache is seeded with the
sentinel and the first write publishes revision 0; when the cache is
seeded from a remote entry, that revision is recorded as observed and the
write publishes it plus one; when the cache already holds revision c and
the last observed remote revision is m (the cache dominating observations),
the write publishes max c m + 1; and when the cached revision is the
maximum representable one the call fails permanently with a max-revision
error, publishing nothing and never wrapping around. -/
theorem setJSON_revision_computation (w : World) (priv dk json : String) :
    (CachedRevision.noEntry ≠ CachedRevision.rev 0)
    ∧ (w.cache (publicKeyOf priv) dk = .unknown →
        w.registry (publicKeyOf priv) dk = none →
        (∃ sig, (setJSON w priv dk json).1.registry (publicKeyOf priv) dk
            = some ⟨⟨dk, contentLinkOf json, 0⟩, sig⟩)
        ∧ (setJSON w priv dk json).2 = .ok (json, formatLink (contentLinkOf json)))
    ∧ (∀ se, w.cache (publicKeyOf priv) dk = .unknown →
        w.registry (publicKeyOf priv) dk = some se →
        verifySig (publicKeyOf priv) (registryEntryDigest se.entry) se.signature = true →
        se.entry.revision < MAX_REVISION →
        (∃ sig, (setJSON w priv dk json).1.registry (publicKeyOf priv) dk
            = some ⟨⟨dk, contentLinkOf json, se.entry.revision + 1⟩, sig⟩)
        ∧ (setJSON w priv dk json).1.obs (publicKeyOf priv) dk = some se.entry.revision
        ∧ (setJSON w priv dk json).2 = .ok (json, formatLink (contentLinkOf json)))
    ∧ (∀ c m, CacheObsOK w (publicKeyOf priv) dk →
        w.cache (publicKeyOf priv) dk = .rev c →
        w.obs (publicKeyOf priv) dk = some m →
        c < MAX_REVISION →
        (∀ se, w.registry (publicKeyOf priv) dk = some se → se.entry.revision ≤ c) →
        (∃ sig, (setJSON w priv dk json).1.registry (publicKeyOf priv) dk
            = some ⟨⟨dk, contentLinkOf json, Nat.max c m + 1⟩, sig⟩)
        ∧ (setJSON w priv dk json).2 = .ok (json, formatLink (contentLinkOf json)))
    ∧ (w.cache (publicKeyOf priv) dk = .rev MAX_REVISION →
        (setJSON w priv dk json).2 = .error .maxRevision
        ∧ (setJSON w priv dk json).1.registry = w.registry) := by
  refine ⟨by simp, ?_, ?_, ?_, ?_⟩
  · intro hc hr
    rw [setJSON_fresh w priv dk json hc hr]
    exact ⟨⟨_, setMap2_same _ _ _ _⟩, rfl⟩
  · intro se hc hr hv hmax
    rw [setJSON_seeded w priv dk json se hc hr hv hmax]
    exact ⟨⟨_, setMap2_same _ _ _ _⟩, setMap2_same _ _ _ _, rfl⟩
  · intro c m hok hc hobs hmax hb
    have hm : m ≤ c := hok m c hobs hc
    have hmaxeq : Nat.max c m = c := Nat.max_eq_left hm
    rw [setJSON_cached w priv dk json c hc hmax hb, hmaxeq]
    exact ⟨⟨_, setMap2_same _ _ _ _⟩, rfl⟩
  · intro hc
    exact ⟨(setJSON_ceiling w priv dk json hc).1, (setJSON_ceiling w priv dk json hc).2.1⟩

theorem setJSON_revision_computation_witness :
    (∃ sig, (setJSON emptyWorld "priv" "dk" "doc").1.registry (publicKeyOf "priv") "dk"
        = some ⟨⟨"dk", contentLinkOf "doc", 0⟩, sig⟩)
    ∧ (setJSON emptyWorld "priv" "dk" "doc").2
        = .ok ("doc", formatLink (contentLinkOf "doc")) :=
  (setJSON_revision_computation emptyWorld "priv" "dk" "doc").2.1 rfl rfl

/-- C3: getJSON returns nulls exactly when the registry holds no entry for
the key or the entry's data is the reserved deletion sentinel; in every
other (well-formed) case it returns the blob document with the Content
Link decoded from the entry's data — in particular the sentinel is never
decoded as a link. -/
theorem getJSON_null_iff (w : World) (pk dk : String)
    (hwf : WellFormedKey w pk dk) :
    ((getJSON w pk dk).2 = .ok none ↔
      w.registry pk dk = none
      ∨ ∃ se, w.registry pk dk = some se ∧ se.entry.data = DELETION_ENTRY_DATA)
    ∧ (∀ se, w.registry pk dk = some se → se.entry.data ≠ DELETION_ENTRY_DATA →
        ∃ json, w.blobs se.entry.data = some json
          ∧ (getJSON w pk dk).2 = .ok (some (json, formatLink se.entry.data))) := by
  constructor
  · cases hreg : w.registry pk dk with
    | none =>
      rw [getJSON_absent w pk dk hreg]
      simp
    | some se =>
      have hv := (hwf se hreg).1
      by_cases hd : se.entry.data = DELETION_ENTRY_DATA
      · rw [getJSON_deleted w pk dk se hreg hv hd]
        simp only [true_iff]
        exact Or.inr ⟨se, rfl, hd⟩
      · obtain ⟨hl, j, hb⟩ := (hwf se hreg).2 hd
        rw [getJSON_link w pk dk se j hreg hv hd hl hb]
        constructor
        · intro h
          exact absurd h (by simp)
        · rintro (h | ⟨se', hse', hd'⟩)
          · exact Option.noConfusion h
          · cases Option.some.inj hse'
            exact absurd hd' hd
  · intro se hreg hd
    have hv := (hwf se hreg).1
    obtain ⟨hl, j, hb⟩ := (hwf se hreg).2 hd
    exact ⟨j, hb, getJSON_link w pk dk se j hreg hv hd hl hb⟩

theorem getJSON_null_iff_witness :
    (getJSON emptyWorld "pub" "dk").2 = .ok none :=
  (getJSON_null_iff emptyWorld "pub" "dk" (fun se h => by exact absurd h (by simp [emptyWorld]))).1.mpr
    (Or.inl rfl)

theorem deleteJSON_cached (w : World) (priv dk : String) (c : Nat)
    (hc : w.cache (publicKeyOf priv) dk = .rev c)
    (hmax : c < MAX_REVISION)
    (hb : ∀ se, w.registry (publicKeyOf priv) dk = some se → se.entry.revision ≤ c) :
    deleteJSON w priv dk =
      ({ registry := setMap2 w.registry (publicKeyOf priv) dk
            (some ⟨⟨dk, DELETION_ENTRY_DATA, c + 1⟩,
              signDigest priv (registryEntryDigest ⟨dk, DELETION_ENTRY_DATA, c + 1⟩)⟩),
         blobs := w.blobs,
         cache := setMap2 w.cache (publicKeyOf priv) dk (.rev (c + 1)),
         obs := w.obs },
       .ok ()) := by
  unfold deleteJSON
  rw [setEntryData_cached w priv dk DELETION_ENTRY_DATA true c
    validateEntryData_deletion hc hmax hb]

set_option maxHeartbeats 1600000 in
/-- C4: deleteJSON performs the same locked write sequence as setEntryData
but with the entry data fixed to the reserved deletion sentinel, whose
length equals that of a decoded Content Link; starting from a fresh key,
setJSON followed by deleteJSON makes getJSON report nulls, and a following
setJSON on the same key succeeds and is readable again. -/
theorem deleteJSON_roundtrip (w : World) (priv dk json json2 : String)
    (hc : w.cache (publicKeyOf priv) dk = .unknown)
    (hr : w.registry (publicKeyOf priv) dk = none) :
    (∀ w1 priv1 dk1, deleteJSON w1 priv1 dk1
        = ((setEntryData w1 priv1 dk1 DELETION_ENTRY_DATA true).1,
           Except.map (fun _ => ())
             (setEntryData w1 priv1 dk1 DELETION_ENTRY_DATA true).2))
    ∧ DELETION_ENTRY_DATA.length = RAW_SKYLINK_SIZE
    ∧ (setJSON w priv dk json).2 = .ok (json, formatLink (contentLinkOf json))
    ∧ (deleteJSON (setJSON w priv dk json).1 priv dk).2 = .ok ()
    ∧ (getJSON (deleteJSON (setJSON w priv dk json).1 priv dk).1
          (publicKeyOf priv) dk).2 = .ok none
    ∧ (setJSON (deleteJSON (setJSON w priv dk json).1 priv dk).1 priv dk json2).2
        = .ok (json2, formatLink (contentLinkOf json2))
    ∧ (getJSON
          (setJSON (deleteJSON (setJSON w priv dk json).1 priv dk).1 priv dk json2).1
          (publicKeyOf priv) dk).2
        = .ok (some (json2, formatLink (contentLinkOf json2))) := by
  have h1 := setJSON_fresh w priv dk json hc hr
  have hc1 : (setJSON w priv dk json).1.cache (publicKeyOf priv) dk = .rev 0 := by
    rw [h1]; exact setMap2_same _ _ _ _
  have hr1 : (setJSON w priv dk json).1.registry (publicKeyOf priv) dk
      = some ⟨⟨dk, contentLinkOf json, 0⟩,
          signDigest priv (registryEntryDigest ⟨dk, contentLinkOf json, 0⟩)⟩ := by
    rw [h1]; exact setMap2_same _ _ _ _
  have hb1 : ∀ se, (setJSON w priv dk json).1.registry (publicKeyOf priv) dk = some se →
      se.entry.revision ≤ 0 := by
    intro se h
    rw [hr1] at h
    cases Option.some.inj h
    exact Nat.le.refl
  have hmax0 : (0 : Nat) < MAX_REVISION := by decide
  have h2 := deleteJSON_cached (setJSON w priv dk json).1 priv dk 0 hc1 hmax0 hb1
  have hc2 : (deleteJSON (setJSON w priv dk json).1 priv dk).1.cache
      (publicKeyOf priv) dk = .rev 1 := by
    rw [h2]; exact setMap2_same _ _ _ _
  have hr2 : (deleteJSON (setJSON w priv dk json).1 priv dk).1.registry
      (publicKeyOf priv) dk
      = some ⟨⟨dk, DELETION_ENTRY_DATA, 1⟩,
          signDigest priv (registryEntryDigest ⟨dk, DELETION_ENTRY_DATA, 1⟩)⟩ := by
    rw [h2]; exact setMap2_same _ _ _ _
  have hb2 : ∀ se, (deleteJSON (setJSON w priv dk json).1 priv dk).1.registry
      (publicKeyOf priv) dk = some se → se.entry.revision ≤ 1 := by
    intro se h
    rw [hr2] at h
    cases Option.some.inj h
    exact Nat.le.refl
  have hmax1 : (1 : Nat) < MAX_REVISION := by decide
  have h3 := setJSON_cached (deleteJSON (setJSON w priv dk json).1 priv dk).1
    priv dk json2 1 hc2 hmax1 hb2
  have hr3 : (setJSON (deleteJSON (setJSON w priv dk json).1 priv dk).1 priv dk json2).1.registry
      (publicKeyOf priv) dk
      = some ⟨⟨dk, contentLinkOf json2, 2⟩,
          signDigest priv (registryEntryDigest ⟨dk, contentLinkOf json2, 2⟩)⟩ := by
    rw [h3]; exact setMap2_same _ _ _ _
  have hblob3 : (setJSON (deleteJSON (setJSON w priv dk json).1 priv dk).1
        priv dk json2).1.blobs (contentLinkOf json2) = some json2 := by
    rw [h3]; simp
  refine ⟨?_, deletion_entry_data_length, ?_, ?_, ?_, ?_, ?_⟩
  · intro w1 priv1 dk1
    unfold deleteJSON
    rcases setEntryData w1 priv1 dk1 DELETION_ENTRY_DATA true with ⟨w2, r⟩
    cases r <;> rfl
  · rw [h1]
  · rw [h2]
  · exact getJSON_deleted _ (publicKeyOf priv) dk _ hr2
      (verifySig_signDigest priv _) rfl
  · rw [h3]
  · exact getJSON_link _ (publicKeyOf priv) dk
      ⟨⟨dk, contentLinkOf json2, 2⟩,
        signDigest priv (registryEntryDigest ⟨dk, contentLinkOf json2, 2⟩)⟩
      json2 hr3 (verifySig_signDigest priv _) (contentLinkOf_ne_deletion json2)
      (contentLinkOf_length json2) hblob3

theorem deleteJSON_roundtrip_witness :
    (getJSON (deleteJSON (setJSON emptyWorld "priv" "dk" "a").1 "priv" "dk").1
        (publicKeyOf "priv") "dk").2 = .ok none
    ∧ (getJSON
        (setJSON (deleteJSON (setJSON emptyWorld "priv" "dk" "a").1 "priv" "dk").1
          "priv" "dk" "b").1
        (publicKeyOf "priv") "dk").2
      = .ok (some ("b", formatLink (contentLinkOf "b"))) :=
  ⟨(deleteJSON_roundtrip emptyWorld "priv" "dk" "a" "b" rfl rfl).2.2.2.2.1,
   (deleteJSON_roundtrip emptyWorld "priv" "dk" "a" "b" rfl rfl).2.2.2.2.2.2⟩

/-- C5: whenever a fetched registry entry is non-null the client verifies
it before use: a successfully returned entry always passed signature
verification against the claimed public key; an entry that fails
verification — in particular one whose signature bytes differ anywhere
from the valid signature, as after flipping one byte — makes getEntry
raise TrustError, and the tampered payload is never returned. -/
theorem getEntry_verifies (w : World) (pk dk : String) :
    (∀ se, getEntry w pk dk = .ok (some se) →
      verifySig pk (registryEntryDigest se.entry) se.signature = true)
    ∧ (∀ se, w.registry pk dk = some se →
        verifySig pk (registryEntryDigest se.entry) se.signature = false →
        getEntry w pk dk = .error .trustError)
    ∧ (∀ e sig, w.registry pk dk = some ⟨e, sig⟩ →
        sig ≠ mkSig pk (registryEntryDigest e) →
        getEntry w pk dk = .error .trustError) := by
  refine ⟨?_, ?_, ?_⟩
  · intro se h
    cases hreg : w.registry pk dk with
    | none => simp [getEntry, hreg] at h
    | some se' =>
      by_cases hv : verifySig pk (registryEntryDigest se'.entry) se'.signature = true
      · have hse : se' = se := by simpa [getEntry, hreg, hv] using h
        rw [← hse]
        exact hv
      · simp [getEntry, hreg, hv] at h
  · intro se hreg hv
    simp [getEntry, hreg, hv]
  · intro e sig hreg hne
    have hv : verifySig pk (registryEntryDigest e) sig = false := by
      simp only [verifySig, decide_eq_false_iff_not]
      exact hne
    simp [getEntry, hreg, hv]

theorem getEntry_verifies_witness :
    getEntry
      { emptyWorld with
        registry := setMap2 emptyWorld.registry "pub" "dk" (some ⟨⟨"dk", [1], 0⟩, [9]⟩) }
      "pub" "dk" = .error .trustError :=
  (getEntry_verifies
      { emptyWorld with
        registry := setMap2 emptyWorld.registry "pub" "dk" (some ⟨⟨"dk", [1], 0⟩, [9]⟩) }
      "pub" "dk").2.2 ⟨"dk", [1], 0⟩ [9] (by rfl)
    (by
      intro h
      have hlen := congrArg List.length h
      simp [mkSig, digest32_length, registryEntryDigest, encodeUint64] at hlen)

theorem incrementRevision_error (o : Option Nat) (e : SkyError)
    (h : incrementRevision o = .error e) : ∃ n, o = some n ∧ MAX_REVISION ≤ n := by
  cases o with
  | none => exact Except.noConfusion h
  | some n =>
    by_cases hn : n < MAX_REVISION
    · rw [incrementRevision, if_pos hn] at h
      exact Except.noConfusion h
    · exact ⟨n, rfl, Nat.le_of_not_lt hn⟩

theorem seeded_bound (s : CState)
    (h3 : ∀ c, s.cache = .rev c → ∃ m, s.reg = some m ∧ c ≤ m) :
    ∀ n, seededRevision s.cache s.reg = some n → ∃ m, s.reg = some m ∧ n ≤ m := by
  intro n hn
  cases hc : s.cache with
  | unknown =>
    rw [hc] at hn
    exact ⟨n, hn, Nat.le.refl⟩
  | noEntry =>
    rw [hc] at hn
    exact Option.noConfusion hn
  | rev c =>
    rw [hc] at hn
    have hcn : c = n := Option.some.inj hn
    subst hcn
    exact h3 c hc

theorem cinv_init (reg0 : Option Nat) : CInv (initC reg0) := by
  refine ⟨List.chain'_nil, ?_, ?_, ?_, ?_⟩
  · intro r hr
    exact absurd hr (List.not_mem_nil r)
  · intro c hc
    exact absurd hc (by simp [initC])
  · intro i hi
    exact absurd hi (by simp [initC])
  · intro i hi
    exact absurd hi (by simp [initC])

theorem cinv_step {s s' : CState} (h : CStep s s') (hi : CInv s) : CInv s' := by
  obtain ⟨h1, h2, h3, h4, h5⟩ := hi
  cases h with
  | acquire i hidle hlock =>
    refine ⟨h1, h2, h3, ?_, ?_⟩
    · intro j hj
      by_cases hji : j = i
      · subst hji
        rfl
      · have hj' : s.procs j = .locked := by simpa [setProc, hji] using hj
        have hl := h4 j hj'
        rw [hlock] at hl
        exact Option.noConfusion hl
    · intro j hj
      by_cases hji : j = i
      · subst hji
        simp [setProc] at hj
      · exact h5 j (by simpa [setProc, hji] using hj)
  | env m hm =>
    refine ⟨h1, ?_, ?_, h4, ?_⟩
    · intro r hr
      obtain ⟨m0, hm0, hle⟩ := h2 r hr
      rw [hm0] at hm
      simp only [regLt, decide_eq_true_eq] at hm
      exact ⟨m, rfl, hle.trans (Nat.le_of_lt hm)⟩
    · intro c hc
      obtain ⟨m0, hm0, hle⟩ := h3 c hc
      rw [hm0] at hm
      simp only [regLt, decide_eq_true_eq] at hm
      exact ⟨m, rfl, hle.trans (Nat.le_of_lt hm)⟩
    · intro j hj
      obtain ⟨m0, hm0, hle⟩ := h5 j hj
      rw [hm0] at hm
      simp only [regLt, decide_eq_true_eq] at hm
      exact ⟨m, rfl, hle.trans (Nat.le_of_lt hm)⟩
  | run i hlocked hlock =>
    have hnolock : ∀ j, j ≠ i → s.procs j ≠ .locked := by
      intro j hji hj
      have hl := h4 j hj
      rw [hlock] at hl
      exact hji (Option.some.inj hl).symm
    unfold runOp
    cases hinc : incrementRevision (seededRevision s.cache s.reg) with
    | error e =>
      refine ⟨h1, h2, ?_, ?_, ?_⟩
      · intro c hc
        have hcur : seededRevision s.cache s.reg = some c := by
          cases hcur0 : seededRevision s.cache s.reg with
          | none =>
            rw [hcur0] at hc
            exact absurd hc (by simp [cacheOf])
          | some k =>
            rw [hcur0] at hc
            simp only [cacheOf, CachedRevision.rev.injEq] at hc
            rw [hc]
        exact seeded_bound s h3 c hcur
      · intro j hj
        by_cases hji : j = i
        · subst hji
          simp [setProc] at hj
        · exact absurd (by simpa [setProc, hji] using hj) (hnolock j hji)
      · intro j hj
        by_cases hji : j = i
        · obtain ⟨n, hcur, hmax⟩ := incrementRevision_error _ _ hinc
          obtain ⟨m, hm, hnm⟩ := seeded_bound s h3 n hcur
          exact ⟨m, hm, hmax.trans hnm⟩
        · exact h5 j (by simpa [setProc, hji] using hj)
    | ok n =>
      dsimp only
      by_cases hacc : acceptRev s.reg n = true
      · rw [if_pos hacc]
        have hgt : ∀ m0, s.reg = some m0 → m0 < n := by
          intro m0 hm0
          rw [hm0] at hacc
          simpa only [acceptRev, decide_eq_true_eq] using hacc
        refine ⟨?_, ?_, ?_, ?_, ?_⟩
        · rw [List.chain'_append]
          refine ⟨h1, List.chain'_singleton n, ?_⟩
          intro x hx y hy
          have hy' : n = y := by simpa using hy
          have hxin : x ∈ s.hist := List.mem_of_mem_getLast? hx
          obtain ⟨m0, hm0, hle⟩ := h2 x hxin
          rw [← hy']
          exact Nat.lt_of_le_of_lt hle (hgt m0 hm0)
        · intro r hr
          rcases List.mem_append.mp hr with hold | hnew
          · obtain ⟨m0, hm0, hle⟩ := h2 r hold
            exact ⟨n, rfl, Nat.le_of_lt (Nat.lt_of_le_of_lt hle (hgt m0 hm0))⟩
          · have : r = n := by simpa using hnew
            exact ⟨n, rfl, this ▸ Nat.le.refl⟩
        · intro c hc
          simp only [CachedRevision.rev.injEq] at hc
          exact ⟨n, rfl, hc ▸ Nat.le.refl⟩
        · intro j hj
          by_cases hji : j = i
          · subst hji
            simp [setProc] at hj
          · exact absurd (by simpa [setProc, hji] using hj) (hnolock j hji)
        · intro j hj
          by_cases hji : j = i
          · subst hji
            simp [setProc] at hj
          · obtain ⟨m0, hm0, hle⟩ := h5 j (by simpa [setProc, hji] using hj)
            exact ⟨n, rfl, hle.trans (Nat.le_of_lt (hgt m0 hm0))⟩
      · rw [if_neg hacc]
        refine ⟨h1, h2, ?_, ?_, ?_⟩
        · intro c hc
          cases hreg : s.reg with
          | none =>
            rw [hreg] at hc
            exact absurd hc (by simp [cacheOf])
          | some k =>
            rw [hreg] at hc
            simp only [cacheOf, CachedRevision.rev.injEq] at hc
            exact ⟨k, rfl, hc ▸ Nat.le.refl⟩
        · intro j hj
          by_cases hji : j = i
          · subst hji
            simp [setProc] at hj
          · exact absurd (by simpa [setProc, hji] using hj) (hnolock j hji)
        · intro j hj
          by_cases hji : j = i
          · subst hji
            simp [setProc] at hj
          · exact h5 j (by simpa [setProc, hji] using hj)

theorem cinv_reach {s0 s : CState} (h : CReach s0 s) (h0 : CInv s0) : CInv s := by
  induction h with
  | refl => exact h0
  | tail _ hs ih => exact cinv_step hs ih

/-- C1: within a process, the revisions carried by the sequence of
successful writes to a (publicKey, dataKey) key — setJSON, deleteJSON and
setEntryData all run the same locked write sequence modelled by `runOp` —
form a strictly increasing sequence in every reachable state: no revision
is reused or decreased. -/
theorem revisions_strictly_increasing (reg0 : Option Nat) (s : CState)
    (h : CReach (initC reg0) s) : List.Chain' (· < ·) s.hist :=
  (cinv_reach h (cinv_init reg0)).1

theorem revisions_strictly_increasing_witness :
    List.Chain' (· < ·) cW2.hist :=
  revisions_strictly_increasing none cW2
    (Relation.ReflTransGen.tail
      (Relation.ReflTransGen.tail Relation.ReflTransGen.refl
        (CStep.acquire cW0 0 rfl rfl))
      (CStep.run cW1 0 rfl rfl))

/-- C9: in every reachable state of the concurrency model, at most one
local writer holds the key's exclusive region (the per-key mutex
serializes concurrent local writers); the successful writes carry pairwise
distinct, strictly increasing revisions; and — as long as the remote
revision is below the representable ceiling — every completed writer
either succeeded or failed with a ConflictError. -/
theorem concurrent_writers (reg0 : Option Nat) (s : CState)
    (h : CReach (initC reg0) s) :
    (∀ i j, s.procs i = .locked → s.procs j = .locked → i = j)
    ∧ List.Pairwise (· < ·) s.hist
    ∧ ((∀ m, s.reg = some m → m < MAX_REVISION) →
        ∀ i o, s.procs i = .done o → o = .conflict ∨ ∃ r, o = .success r) := by
  obtain ⟨h1, _h2, _h3, h4, h5⟩ := cinv_reach h (cinv_init reg0)
  refine ⟨?_, ?_, ?_⟩
  · intro i j hi hj
    have hli := h4 i hi
    have hlj := h4 j hj
    rw [hli] at hlj
    exact Option.some.inj hlj
  · exact List.chain'_iff_pairwise.mp h1
  · intro hreg i o hdone
    cases o with
    | success r => exact Or.inr ⟨r, rfl⟩
    | conflict => exact Or.inl rfl
    | maxRev =>
      obtain ⟨m, hm, hmax⟩ := h5 i hdone
      exact absurd (hreg m hm) (Nat.not_lt_of_le hmax)

theorem concurrent_writers_witness :
    List.Pairwise (· < ·) cW2.hist :=
  (concurrent_writers none cW2
    (Relation.ReflTransGen.tail
      (Relation.ReflTransGen.tail Relation.ReflTransGen.refl
        (CStep.acquire cW0 0 rfl rfl))
      (CStep.run cW1 0 rfl rfl))).2.1

theorem dropStart_eq_some_iff (p : List Char) :
    ∀ l r : List Char, dropStart p l = some r ↔ l = p ++ r := by
  induction p with
  | nil =>
    intro l r
    simp [dropStart]
  | cons c p ih =>
    intro l r
    cases l with
    | nil => simp [dropStart]
    | cons a l =>
      by_cases hac : a = c
      · subst hac
        simp only [dropStart, if_pos rfl, List.cons_append, List.cons.injEq, true_and]
        exact ih l r
      · simp [dropStart, hac, List.cons_append]

theorem all_base64_no_char (l : List Char) (c : Char)
    (hall : l.all isBase64Char = true) (hc : isBase64Char c = false) :
    l.all (· ≠ c) = true := by
  rw [List.all_eq_true] at hall ⊢
  intro x hx
  simp only [decide_eq_true_eq]
  intro hxc
  have hb := hall x hx
  rw [hxc, hc] at hb
  exact Bool.noConfusion hb

theorem dropStart_bad_of_all_append (p l rest : List Char)
    (hall : l.all isBase64Char = true)
    (hlen : p.length ≤ l.length)
    (hbad : p.all isBase64Char = false) :
    dropStart p (l ++ rest) = none := by
  cases hd : dropStart p (l ++ rest) with
  | none => rfl
  | some r =>
    rw [dropStart_eq_some_iff] at hd
    have htake := congrArg (List.take p.length) hd
    rw [List.take_append_of_le_length hlen, List.take_left] at htake
    have hp : p.all isBase64Char = true := by
      rw [List.all_eq_true]
      intro x hx
      have hx2 : x ∈ l.take p.length := by rw [htake]; exact hx
      exact (List.all_eq_true.mp hall) x (List.take_subset _ _ hx2)
    rw [hp] at hbad
    exact Bool.noConfusion hbad

theorem dropStart_mismatch (c1 c2 : Char) (p l : List Char) (h : ¬c2 = c1) :
    dropStart (c1 :: p) (c2 :: l) = none := by
  simp [dropStart, h]

theorem takeWhile_all_eq (p : Char → Bool) (l : List Char) (h : l.all p = true) :
    l.takeWhile p = l := by
  induction l with
  | nil => rfl
  | cons a l ih =>
    rw [List.all_cons, Bool.and_eq_true] at h
    rw [List.takeWhile_cons_of_pos h.1, ih h.2]

theorem takeWhile_append_stop (p : Char → Bool) (l r : List Char) (c : Char)
    (hl : l.all p = true) (hc : p c = false) :
    (l ++ c :: r).takeWhile p = l := by
  induction l with
  | nil =>
    rw [List.nil_append]
    exact List.takeWhile_cons_of_neg (by rw [hc]; exact Bool.noConfusion)
  | cons a l ih =>
    rw [List.all_cons, Bool.and_eq_true] at hl
    rw [List.cons_append, List.takeWhile_cons_of_pos hl.1, ih hl.2]

theorem dropWhile_append_all (p : Char → Bool) (l r : List Char)
    (hl : l.all p = true) : (l ++ r).dropWhile p = r.dropWhile p := by
  induction l with
  | nil => rfl
  | cons a l ih =>
    rw [List.all_cons, Bool.and_eq_true] at hl
    rw [List.cons_append, List.dropWhile_cons_of_pos hl.1]
    exact ih hl.2

theorem trimTrailingSlash_of_no_slash (l : List Char)
    (h : l.all (· ≠ '/') = true) : trimTrailingSlash l = l := by
  unfold trimTrailingSlash
  rw [if_neg]
  intro hl
  have hmem : '/' ∈ l := List.mem_of_mem_getLast? hl
  have hx := (List.all_eq_true.mp h) '/' hmem
  simp at hx

theorem trimTrailingSlash_append_of_ne (l r : List Char) (c : Char)
    (hr : r.getLast? = some c) (hc : ¬c = '/') :
    trimTrailingSlash (l ++ r) = l ++ r := by
  unfold trimTrailingSlash
  rw [if_neg]
  rw [List.getLast?_append, hr]
  simp only [Option.or, Option.some.injEq]
  exact hc

theorem trimTrailingSlash_concat_slash (l : List Char) :
    trimTrailingSlash (l ++ ['/']) = l := by
  unfold trimTrailingSlash
  rw [if_pos (by rw [List.getLast?_append]; rfl), List.dropLast_concat]

theorem parseCore_append (L path : List Char) (hlen : L.length = 46)
    (hall : L.all isBase64Char = true)
    (hpath : path = [] ∨ path.head? = some '/') :
    parseCore (L ++ path) = some (L, path) := by
  have htake : (L ++ path).take 46 = L := by
    rw [← hlen]
    exact List.take_left L path
  have hdrop : (L ++ path).drop 46 = path := by
    rw [← hlen]
    exact List.drop_left L path
  unfold parseCore
  rw [htake, hdrop, if_pos]
  rw [Bool.and_eq_true]
  refine ⟨by simp [isValidSkylink46, hlen, hall], ?_⟩
  rw [Bool.or_eq_true]
  cases hpath with
  | inl h =>
    subst h
    exact Or.inl rfl
  | inr h =>
    right
    simp [h]

theorem trimUri_base64_append (L rest : List Char)
    (hall : L.all isBase64Char = true) (hlen : L.length = 46) :
    trimUri (L ++ rest) = L ++ rest := by
  simp only [trimUri,
    dropStart_bad_of_all_append ("sia://".data) L rest hall (by rw [hlen]; decide) (by decide),
    dropStart_bad_of_all_append ("sia:".data) L rest hall (by rw [hlen]; decide) (by decide)]

theorem trimUri_sia (L : List Char)
    (hall : L.all isBase64Char = true) :
    trimUri ("sia:".data ++ L) = L ∧ trimUri ("sia://".data ++ L) = L := by
  have hs : L.all (· ≠ '/') = true := all_base64_no_char L '/' hall (by decide)
  have h1 : dropStart ("sia://".data) ("sia:".data ++ L) = none := by
    cases hd : dropStart ("sia://".data) ("sia:".data ++ L) with
    | none => rfl
    | some r =>
      rw [dropStart_eq_some_iff] at hd
      have h6 : ("sia://".data : List Char) = "sia:".data ++ "//".data := rfl
      rw [h6, List.append_assoc] at hd
      have hL : L = "//".data ++ r := List.append_cancel_left hd
      have hmem : '/' ∈ L := by
        rw [hL]
        exact List.mem_append.mpr (Or.inl (by decide))
      have hx := (List.all_eq_true.mp hs) '/' hmem
      simp at hx
  have h2 : dropStart ("sia:".data) ("sia:".data ++ L) = some L :=
    (dropStart_eq_some_iff _ _ _).mpr rfl
  have h3 : dropStart ("sia://".data) ("sia://".data ++ L) = some L :=
    (dropStart_eq_some_iff _ _ _).mpr rfl
  constructor
  · simp only [trimUri, h1, h2]
  · simp only [trimUri, h3]

theorem trimUri_portal (X : List Char) :
    trimUri ("https://siasky.net/".data ++ X) = "https://siasky.net/".data ++ X := by
  have e1 : ("sia://".data : List Char) = 's' :: "ia://".data := rfl
  have e1b : ("sia:".data : List Char) = 's' :: "ia:".data := rfl
  have e2 : ("https://siasky.net/".data : List Char) = 'h' :: "ttps://siasky.net/".data := rfl
  have h1 : dropStart ("sia://".data) ("https://siasky.net/".data ++ X) = none := by
    rw [e1, e2, List.cons_append]
    exact dropStart_mismatch 's' 'h' _ _ (by decide)
  have h2 : dropStart ("sia:".data) ("https://siasky.net/".data ++ X) = none := by
    rw [e1b, e2, List.cons_append]
    exact dropStart_mismatch 's' 'h' _ _ (by decide)
  simp only [trimUri, h1, h2]

theorem stripPortal_base64_append (L rest : List Char)
    (hall : L.all isBase64Char = true) (hlen : L.length = 46) :
    stripPortal (L ++ rest) = L ++ rest := by
  simp only [stripPortal,
    dropStart_bad_of_all_append ("https://".data) L rest hall (by rw [hlen]; decide) (by decide),
    dropStart_bad_of_all_append ("http://".data) L rest hall (by rw [hlen]; decide) (by decide)]

theorem stripPortal_portal (X : List Char) :
    stripPortal ("https://siasky.net/".data ++ X) = X := by
  have h1 : dropStart ("https://".data) ("https://siasky.net/".data ++ X)
      = some ("siasky.net/".data ++ X) := by
    rw [dropStart_eq_some_iff, ← List.append_assoc]
    rfl
  have key : List.drop 1
      (List.dropWhile (fun x => decide (x ≠ '/')) ("siasky.net/".data ++ X)) = X := by
    have e : ("siasky.net/".data : List Char) = "siasky.net".data ++ ['/'] := rfl
    rw [e, List.append_assoc, List.singleton_append,
      dropWhile_append_all _ _ _ (by decide),
      List.dropWhile_cons_of_neg (by decide)]
    rfl
  simp only [stripPortal, h1]
  exact key

theorem parseSkylink_base64_tail (L rest path : List Char)
    (hall : L.all isBase64Char = true) (hlen : L.length = 46)
    (hcut : trimTrailingSlash (cutAt '#' (cutAt '?' (L ++ rest))) = L ++ path)
    (hpath : path = [] ∨ path.head? = some '/') :
    parseSkylink (L ++ rest) = some (L, path) := by
  unfold parseSkylink
  rw [trimUri_base64_append L rest hall hlen, stripPortal_base64_append L rest hall hlen,
    hcut]
  exact parseCore_append L path hlen hall hpath

theorem parseSkylink_portal_tail (L rest path : List Char)
    (hall : L.all isBase64Char = true) (hlen : L.length = 46)
    (hcut : trimTrailingSlash (cutAt '#' (cutAt '?' (L ++ rest))) = L ++ path)
    (hpath : path = [] ∨ path.head? = some '/') :
    parseSkylink ("https://siasky.net/".data ++ (L ++ rest)) = some (L, path) := by
  unfold parseSkylink
  rw [trimUri_portal (L ++ rest), stripPortal_portal (L ++ rest), hcut]
  exact parseCore_append L path hlen hall hpath

/-- C7: parseSkylink accepts a canonical textual link given plain, with a
`sia:` or `sia://` scheme qualifier, with a trailing path, query or
fragment, or embedded in a full portal URL (optionally with a trailing
slash), recovering the same underlying link in every form; a trailing
"/foo/bar" is returned as the path component; and an input that is not
recognizable as a link yields `none` rather than an error, so callers can
distinguish "not a link" from a hard failure. -/
theorem parseSkylink_variants (L : List Char) (hL : isValidSkylink46 L = true) :
    parseSkylink L = some (L, [])
    ∧ parseSkylink ("sia:".data ++ L) = some (L, [])
    ∧ parseSkylink ("sia://".data ++ L) = some (L, [])
    ∧ parseSkylink (L ++ "/foo/bar".data) = some (L, "/foo/bar".data)
    ∧ parseSkylink (L ++ "?foo=bar".data) = some (L, [])
    ∧ parseSkylink (L ++ "#foobar".data) = some (L, [])
    ∧ parseSkylink ("https://siasky.net/".data ++ (L ++ [])) = some (L, [])
    ∧ parseSkylink ("https://siasky.net/".data ++ (L ++ ['/'])) = some (L, [])
    ∧ parseSkylink ("https://siasky.net/".data ++ (L ++ "/foo/bar".data))
        = some (L, "/foo/bar".data)
    ∧ parseSkylink "nota-link".data = none
    ∧ parseSkylink "".data = none := by
  have hlen : L.length = 46 := by
    have h := hL
    rw [isValidSkylink46, Bool.and_eq_true, beq_iff_eq] at h
    exact h.1
  have hall : L.all isBase64Char = true := by
    have h := hL
    rw [isValidSkylink46, Bool.and_eq_true] at h
    exact h.2
  have hq : L.all (· ≠ '?') = true := all_base64_no_char L '?' hall (by decide)
  have hh : L.all (· ≠ '#') = true := all_base64_no_char L '#' hall (by decide)
  have hs : L.all (· ≠ '/') = true := all_base64_no_char L '/' hall (by decide)
  have hcut_nil : trimTrailingSlash (cutAt '#' (cutAt '?' (L ++ []))) = L ++ [] := by
    rw [List.append_nil]
    simp only [cutAt]
    rw [takeWhile_all_eq _ _ hq, takeWhile_all_eq _ _ hh]
    exact trimTrailingSlash_of_no_slash L hs
  have hcut_path : trimTrailingSlash (cutAt '#' (cutAt '?' (L ++ "/foo/bar".data)))
      = L ++ "/foo/bar".data := by
    have hq2 : (L ++ ['/', 'f', 'o', 'o', '/', 'b', 'a', 'r']).all (· ≠ '?') = true := by
      rw [List.all_append, Bool.and_eq_true]
      exact ⟨hq, by decide⟩
    have hh2 : (L ++ ['/', 'f', 'o', 'o', '/', 'b', 'a', 'r']).all (· ≠ '#') = true := by
      rw [List.all_append, Bool.and_eq_true]
      exact ⟨hh, by decide⟩
    simp only [cutAt]
    rw [takeWhile_all_eq _ _ hq2, takeWhile_all_eq _ _ hh2]
    exact trimTrailingSlash_append_of_ne L ['/', 'f', 'o', 'o', '/', 'b', 'a', 'r'] 'r'
      (by decide) (by decide)
  have hcut_query : trimTrailingSlash (cutAt '#' (cutAt '?' (L ++ "?foo=bar".data)))
      = L ++ [] := by
    rw [List.append_nil]
    simp only [cutAt]
    rw [takeWhile_append_stop _ L ['f', 'o', 'o', '=', 'b', 'a', 'r'] '?' hq (by decide),
      takeWhile_all_eq _ _ hh]
    exact trimTrailingSlash_of_no_slash L hs
  have hcut_frag : trimTrailingSlash (cutAt '#' (cutAt '?' (L ++ "#foobar".data)))
      = L ++ [] := by
    rw [List.append_nil]
    have hq2 : (L ++ ['#', 'f', 'o', 'o', 'b', 'a', 'r']).all (· ≠ '?') = true := by
      rw [List.all_append, Bool.and_eq_true]
      exact ⟨hq, by decide⟩
    simp only [cutAt]
    rw [takeWhile_all_eq _ _ hq2,
      takeWhile_append_stop _ L ['f', 'o', 'o', 'b', 'a', 'r'] '#' hh (by decide)]
    exact trimTrailingSlash_of_no_slash L hs
  have hcut_slash : trimTrailingSlash (cutAt '#' (cutAt '?' (L ++ ['/']))) = L ++ [] := by
    rw [List.append_nil]
    have hq2 : (L ++ ['/']).all (· ≠ '?') = true := by
      rw [List.all_append, Bool.and_eq_true]
      exact ⟨hq, by decide⟩
    have hh2 : (L ++ ['/']).all (· ≠ '#') = true := by
      rw [List.all_append, Bool.and_eq_true]
      exact ⟨hh, by decide⟩
    simp only [cutAt]
    rw [takeWhile_all_eq _ _ hq2, takeWhile_all_eq _ _ hh2]
    exact trimTrailingSlash_concat_slash L
  have hpath_path : ("/foo/bar".data : List Char) = []
      ∨ ("/foo/bar".data : List Char).head? = some '/' := Or.inr rfl
  refine ⟨?_, ?_, ?_, ?_, ?_, ?_, ?_, ?_, ?_, by decide, by decide⟩
  · have h := parseSkylink_base64_tail L [] [] hall hlen hcut_nil (Or.inl rfl)
    rwa [List.append_nil] at h
  · have ht := (trimUri_sia L hall).1
    unfold parseSkylink
    rw [ht]
    have hsp : stripPortal L = L := by
      have h := stripPortal_base64_append L [] hall hlen
      rwa [List.append_nil] at h
    rw [hsp]
    have hc : trimTrailingSlash (cutAt '#' (cutAt '?' L)) = L := by
      have h := hcut_nil
      rwa [List.append_nil] at h
    rw [hc]
    have h := parseCore_append L [] hlen hall (Or.inl rfl)
    rwa [List.append_nil] at h
  · have ht := (trimUri_sia L hall).2
    unfold parseSkylink
    rw [ht]
    have hsp : stripPortal L = L := by
      have h := stripPortal_base64_append L [] hall hlen
      rwa [List.append_nil] at h
    rw [hsp]
    have hc : trimTrailingSlash (cutAt '#' (cutAt '?' L)) = L := by
      have h := hcut_nil
      rwa [List.append_nil] at h
    rw [hc]
    have h := parseCore_append L [] hlen hall (Or.inl rfl)
    rwa [List.append_nil] at h
  · exact parseSkylink_base64_tail L ("/foo/bar".data) ("/foo/bar".data) hall hlen
      hcut_path hpath_path
  · exact parseSkylink_base64_tail L ("?foo=bar".data) [] hall hlen hcut_query (Or.inl rfl)
  · exact parseSkylink_base64_tail L ("#foobar".data) [] hall hlen hcut_frag (Or.inl rfl)
  · exact parseSkylink_portal_tail L [] [] hall hlen hcut_nil (Or.inl rfl)
  · exact parseSkylink_portal_tail L ['/'] [] hall hlen hcut_slash (Or.inl rfl)
  · exact parseSkylink_portal_tail L ("/foo/bar".data) ("/foo/bar".data) hall hlen
      hcut_path hpath_path

theorem parseSkylink_variants_witness :
    parseSkylink ("XABvi7JtJbQSMAcDwnUnmp2FKDPjg8_tTTFP4BwMSxVdEg".data)
      = some ("XABvi7JtJbQSMAcDwnUnmp2FKDPjg8_tTTFP4BwMSxVdEg".data, [])
    ∧ parseSkylink ("XABvi7JtJbQSMAcDwnUnmp2FKDPjg8_tTTFP4BwMSxVdEg".data
          ++ "/foo/bar".data)
      = some ("XABvi7JtJbQSMAcDwnUnmp2FKDPjg8_tTTFP4BwMSxVdEg".data, "/foo/bar".data) :=
  ⟨(parseSkylink_variants ("XABvi7JtJbQSMAcDwnUnmp2FKDPjg8_tTTFP4BwMSxVdEg".data)
      (by decide)).1,
   (parseSkylink_variants ("XABvi7JtJbQSMAcDwnUnmp2FKDPjg8_tTTFP4BwMSxVdEg".data)
      (by decide)).2.2.2.1⟩

end SkynetJs
